import Mathlib

/-!
Verification development for the kingxl111/search-engine boolean text
retrieval engine.  The C++ core (tokenizer, inverted index, query compiler,
query evaluator, bit-vector) is shallowly embedded: `ds::String` values are
byte lists (`List Nat`, each entry `< 256`), `ds::Vector` is `List`,
`ds::HashTable` is an association list whose enumeration order is insertion
order (the C++ table enumerates in an unspecified hash order; no claim
depends on the order), machine integers are `Nat`, fallible operations
return `Option` / `Except`, and the two evaluator loops whose C++ form can
diverge take an explicit fuel argument.
-/

/-- Byte list of an ASCII string literal (used only on ASCII data, where
Lean code points coincide with the bytes `ds::String` stores). -/
def asciiBytes (s : String) : List Nat :=
  s.data.map Char.toNat

/-! ## Tokenizer (cpp_modules/tokenizer/src/tokenizer.{h,cpp}) -/

/-- Tokenizer configuration fields, from the `Tokenizer` class.  The
built-in Russian stop-word list seeded by the default constructor is not
needed by any claim (each claim either quantifies over configurations or
uses an explicitly constructed tokenizer); `stopwords` is the table of
normalized stop-word byte strings. -/
structure TokenizerConfig where
  min_token_length : Nat
  max_token_length : Nat
  remove_numbers : Bool
  remove_punctuation : Bool
  case_folding : Bool
  stopwords : List (List Nat)

/-- Tokenizer::is_punctuation: four ASCII punctuation ranges. -/
def Tokenizer.is_punctuation (c : Nat) : Bool :=
  (33 ≤ c && c ≤ 47) || (58 ≤ c && c ≤ 64) || (91 ≤ c && c ≤ 96) ||
    (123 ≤ c && c ≤ 126)

/-- std::isspace in the C locale on an unsigned char. -/
def isSpaceByte (c : Nat) : Bool :=
  c == 32 || (9 ≤ c && c ≤ 13)

/-- Tokenizer::is_delimiter: whitespace or punctuation. -/
def Tokenizer.is_delimiter (c : Nat) : Bool :=
  isSpaceByte c || Tokenizer.is_punctuation c

/-- std::isdigit on a byte. -/
def isDigitByte (c : Nat) : Bool :=
  48 ≤ c && c ≤ 57

/-- std::tolower in the C locale: only ASCII A-Z is mapped. -/
def tolowerByte (c : Nat) : Nat :=
  if 65 ≤ c && c ≤ 90 then c + 32 else c

/-- Tokenizer::is_stopword: hash-table membership of the normalized token. -/
def Tokenizer.is_stopword (cfg : TokenizerConfig) (w : List Nat) : Bool :=
  cfg.stopwords.contains w

/-- Tokenizer::normalize_token: trim punctuation from both ends (when
`remove_punctuation`), then per byte drop digits (when `remove_numbers`),
drop interior punctuation other than apostrophe and hyphen (when
`remove_punctuation`), and case-fold (when `case_folding`). -/
def Tokenizer.normalize_token (cfg : TokenizerConfig) (token : List Nat) : List Nat :=
  let core :=
    if cfg.remove_punctuation then
      ((token.dropWhile Tokenizer.is_punctuation).reverse.dropWhile
        Tokenizer.is_punctuation).reverse
    else token
  core.filterMap fun c =>
    if cfg.remove_numbers && isDigitByte c then none
    else if cfg.remove_punctuation && Tokenizer.is_punctuation c &&
        c != 39 && c != 45 then none
    else some (if cfg.case_folding then tolowerByte c else c)

/-- Emission filter used at a delimiter and at end of text: normalized
length within `[min_token_length, max_token_length]` and not a stop word. -/
def Tokenizer.emitAtDelimiter (cfg : TokenizerConfig) (cur : List Nat) : List (List Nat) :=
  let normalized := Tokenizer.normalize_token cfg cur
  if cfg.min_token_length ≤ normalized.length &&
      normalized.length ≤ cfg.max_token_length &&
      !Tokenizer.is_stopword cfg normalized then
    [normalized]
  else []

/-- Emission filter of the max-length overflow flush: the C++ checks only
the lower length bound and the stop-word set here (no upper bound). -/
def Tokenizer.emitAtOverflow (cfg : TokenizerConfig) (cur : List Nat) : List (List Nat) :=
  let normalized := Tokenizer.normalize_token cfg cur
  if cfg.min_token_length ≤ normalized.length &&
      !Tokenizer.is_stopword cfg normalized then
    [normalized]
  else []

/-- Scanning loop of Tokenizer::tokenize over the remaining bytes, with the
accumulated current token. -/
def Tokenizer.tokenizeAux (cfg : TokenizerConfig) :
    List Nat → List Nat → List (List Nat)
  | [], cur =>
    if cur.isEmpty then [] else Tokenizer.emitAtDelimiter cfg cur
  | c :: rest, cur =>
    if Tokenizer.is_delimiter c then
      (if cur.isEmpty then [] else Tokenizer.emitAtDelimiter cfg cur) ++
        Tokenizer.tokenizeAux cfg rest []
    else
      let cur' := cur ++ [c]
      if cfg.max_token_length < cur'.length then
        Tokenizer.emitAtOverflow cfg cur' ++ Tokenizer.tokenizeAux cfg rest []
      else
        Tokenizer.tokenizeAux cfg rest cur'

/-- Tokenizer::tokenize. -/
def Tokenizer.tokenize (cfg : TokenizerConfig) (text : List Nat) : List (List Nat) :=
  Tokenizer.tokenizeAux cfg text []

/-- Tokenizer::TokenWithPosition: `position` is the starting byte offset of
the raw token in the source text, `length` the raw byte count. -/
structure TokenWithPosition where
  token : List Nat
  position : Nat
  length : Nat
  deriving DecidableEq, Repr

/-- Emission of Tokenizer::tokenize_with_positions at a delimiter or at end
of text. -/
def Tokenizer.emitPosAtDelimiter (cfg : TokenizerConfig) (cur : List Nat)
    (tokenStart : Nat) : List TokenWithPosition :=
  let normalized := Tokenizer.normalize_token cfg cur
  if cfg.min_token_length ≤ normalized.length &&
      normalized.length ≤ cfg.max_token_length &&
      !Tokenizer.is_stopword cfg normalized then
    [⟨normalized, tokenStart, cur.length⟩]
  else []

/-- Emission of the overflow flush in Tokenizer::tokenize_with_positions
(again without the upper length bound). -/
def Tokenizer.emitPosAtOverflow (cfg : TokenizerConfig) (cur : List Nat)
    (tokenStart : Nat) : List TokenWithPosition :=
  let normalized := Tokenizer.normalize_token cfg cur
  if cfg.min_token_length ≤ normalized.length &&
      !Tokenizer.is_stopword cfg normalized then
    [⟨normalized, tokenStart, cur.length⟩]
  else []

/-- Scanning loop of Tokenizer::tokenize_with_positions: `i` is the current
byte index, `tokenStart` the start offset of the current raw token. -/
def Tokenizer.tokenizeWithPositionsAux (cfg : TokenizerConfig) :
    List Nat → Nat → List Nat → Nat → List TokenWithPosition
  | [], _, cur, tokenStart =>
    if cur.isEmpty then [] else Tokenizer.emitPosAtDelimiter cfg cur tokenStart
  | c :: rest, i, cur, tokenStart =>
    if Tokenizer.is_delimiter c then
      (if cur.isEmpty then [] else Tokenizer.emitPosAtDelimiter cfg cur tokenStart) ++
        Tokenizer.tokenizeWithPositionsAux cfg rest (i + 1) [] (i + 1)
    else
      let tokenStart' := if cur.isEmpty then i else tokenStart
      let cur' := cur ++ [c]
      if cfg.max_token_length < cur'.length then
        Tokenizer.emitPosAtOverflow cfg cur' tokenStart' ++
          Tokenizer.tokenizeWithPositionsAux cfg rest (i + 1) [] (i + 1)
      else
        Tokenizer.tokenizeWithPositionsAux cfg rest (i + 1) cur' tokenStart'

/-- Tokenizer::tokenize_with_positions. -/
def Tokenizer.tokenize_with_positions (cfg : TokenizerConfig) (text : List Nat) :
    List TokenWithPosition :=
  Tokenizer.tokenizeWithPositionsAux cfg text 0 [] 0

/-! ## Inverted index data model (cpp_modules/boolean_index/src/inverted_index.{h,cpp}) -/

/-- Posting: one term occurrence record for one document. -/
structure Posting where
  doc_id : Nat
  frequency : Nat
  positions : List Nat
  deriving DecidableEq, Repr

/-- Posting::add_position: append the position and rederive `frequency`. -/
def Posting.add_position (p : Posting) (pos : Nat) : Posting :=
  let positions := p.positions ++ [pos]
  ⟨p.doc_id, positions.length, positions⟩

/-- The `Posting(id)` constructor (frequency 1, empty positions) followed by
`add_position` for each accumulated position, as in index_document. -/
def Posting.build (docId : Nat) (positions : List Nat) : Posting :=
  positions.foldl Posting.add_position ⟨docId, 1, []⟩

/-- Document metadata.  `content` is the raw text (kept in memory during
build, not persisted), `length` the unique-term count set by
index_document. -/
structure Document where
  id : Nat
  title : List Nat
  url : List Nat
  content : List Nat
  length : Nat
  deriving DecidableEq, Repr

/-- Association-list lookup, the observable behaviour of
`ds::HashTable::find`. -/
def alookup {α : Type} (l : List (List Nat × α)) (k : List Nat) : Option α :=
  (l.find? fun p => p.1 == k).map (·.2)

/-- Association-list insert, the observable behaviour of
`ds::HashTable::insert`: replace the value of an existing key, otherwise
append a new entry. -/
def aupdate {α : Type} : List (List Nat × α) → List Nat → α → List (List Nat × α)
  | [], k, v => [(k, v)]
  | (k', v') :: rest, k, v =>
    if k' == k then (k', v) :: rest else (k', v') :: aupdate rest k v

/-- In-memory InvertedIndex state: documents in id order, the term →
postings table, and the url → doc id table.  The tokenizer configuration
plays the role of the owned `tokenizer_`; the derived `stats_` snapshot is
recomputable and not claim-relevant, so it is not carried. -/
structure IndexState where
  cfg : TokenizerConfig
  documents : List Document
  index : List (List Nat × List Posting)
  url_to_doc_id : List (List Nat × Nat)

/-- An empty index with the given tokenizer. -/
def IndexState.empty (cfg : TokenizerConfig) : IndexState :=
  ⟨cfg, [], [], []⟩

/-- InvertedIndex::get_document_count. -/
def InvertedIndex.get_document_count (st : IndexState) : Nat :=
  st.documents.length

/-- InvertedIndex::find_postings. -/
def InvertedIndex.find_postings (st : IndexState) (term : List Nat) :
    Option (List Posting) :=
  alookup st.index term

/-- InvertedIndex::get_all_terms (keys of the term table). -/
def InvertedIndex.get_all_terms (st : IndexState) : List (List Nat) :=
  st.index.map (·.1)

/-- InvertedIndex::add_document: an already-present url returns the
existing id unchanged; otherwise the document is appended with
`id = documents_.size()` and the url is recorded. -/
def InvertedIndex.add_document (st : IndexState) (doc : Document) :
    Nat × IndexState :=
  match alookup st.url_to_doc_id doc.url with
  | some existingId => (existingId, st)
  | none =>
    let newId := st.documents.length
    let d := { doc with id := newId }
    (newId,
      { st with
          documents := st.documents ++ [d]
          url_to_doc_id := aupdate st.url_to_doc_id d.url newId })

/-- Per-term position accumulation of index_document: fold over the token
stream, appending each token's `position` (the byte offset produced by
tokenize_with_positions) to its term's entry; a term's entry is created at
its first occurrence. -/
def InvertedIndex.buildTermPositions (toks : List TokenWithPosition) :
    List (List Nat × List Nat) :=
  toks.foldl
    (fun tp ti =>
      match alookup tp ti.token with
      | some ps => aupdate tp ti.token (ps ++ [ti.position])
      | none => tp ++ [(ti.token, [ti.position])])
    []

/-- Update the element at an index of a list (the
`documents_[doc_id].length = ...` store). -/
def modifyAt {α : Type} : List α → Nat → (α → α) → List α
  | [], _, _ => []
  | a :: as, 0, f => f a :: as
  | a :: as, n + 1, f => a :: modifyAt as n f

/-- InvertedIndex::index_document: add_document, tokenize the content with
positions, accumulate per-term positions, append one posting per distinct
term (creating the postings list when absent), and set the document's
`length` to the distinct-term count.  Note the C++ performs all of this
even when add_document found the url already present. -/
def InvertedIndex.index_document (st : IndexState) (doc : Document) :
    Nat × IndexState :=
  let r := InvertedIndex.add_document st doc
  let docId := r.1
  let st1 := r.2
  let toks := Tokenizer.tokenize_with_positions st.cfg doc.content
  let termPositions := InvertedIndex.buildTermPositions toks
  let st2 := termPositions.foldl
    (fun s tp =>
      let posting := Posting.build docId tp.2
      match alookup s.index tp.1 with
      | some postings => { s with index := aupdate s.index tp.1 (postings ++ [posting]) }
      | none => { s with index := s.index ++ [(tp.1, [posting])] })
    st1
  let st3 := { st2 with
      documents := modifyAt st2.documents docId
        (fun d => { d with length := termPositions.length }) }
  (docId, st3)

/-- Document loop of InvertedIndex::validate, carrying the running index
`i`: checks `documents_[i].id == i` and that the url table maps the
document's url to its id. -/
def InvertedIndex.validateDocsAux (st : IndexState) :
    List Document → Nat → Bool
  | [], _ => true
  | d :: rest, i =>
    ((d.id == i) && (alookup st.url_to_doc_id d.url == some d.id)) &&
      InvertedIndex.validateDocsAux st rest (i + 1)

/-- InvertedIndex::validate: the document checks plus, for every posting,
`doc_id < documents_.size()` and `frequency == positions.size()`.  (The C++
iterates `index_.keys()` and re-finds each entry; on the association-list
model with distinct keys this is iteration over the entries.) -/
def InvertedIndex.validate (st : IndexState) : Bool :=
  InvertedIndex.validateDocsAux st st.documents 0 &&
    st.index.all fun tp =>
      tp.2.all fun p =>
        (p.doc_id < st.documents.length : Bool) &&
          (p.frequency == p.positions.length)

/-! ## Binary persistence (InvertedIndex::save_to_file / load_from_file).
The produced file is a byte list; reads are bounds-checked and a failed
read aborts the load (`none`), as does each explicit `return false` of the
C++. -/

/-- Little-endian bytes of a u32 value (a `size_t` is truncated exactly as
the C++ casts do). -/
def u32le (n : Nat) : List Nat :=
  [n % 256, n / 256 % 256, n / 65536 % 256, n / 16777216 % 256]

/-- Little-endian bytes of a u64 value. -/
def u64le (n : Nat) : List Nat :=
  u32le (n % 4294967296) ++ u32le (n / 4294967296)

/-- The 8 signature bytes `"BOOLIDX\0"`. -/
def boolidxSignature : List Nat :=
  [66, 79, 79, 76, 73, 68, 88, 0]

/-- Total posting count across the term table (what update_stats stores in
`stats_.total_postings`, which save_to_file writes). -/
def InvertedIndex.totalPostings (st : IndexState) : Nat :=
  (st.index.map fun tp => tp.2.length).sum

/-- Bytes of one DocumentBlock entry: id, title length and bytes, url
length and bytes, content length (bytes not stored), unique-term count. -/
def documentBlockBytes (d : Document) : List Nat :=
  u32le d.id ++ u32le d.title.length ++ d.title ++ u32le d.url.length ++
    d.url ++ u32le d.content.length ++ u32le d.length

/-- TermOffsetTable entries with the running `current_offset` of
save_to_file.  The starting offset counts `sizeof(uint32_t) * 4 = 16` bytes
per document (the C++ formula), and each record advances by term bytes + a
u32 posting count + 8 bytes per posting. -/
def buildTermOffsets : List (List Nat × List Posting) → Nat → List (Nat × Nat × Nat)
  | [], _ => []
  | (t, ps) :: rest, cur =>
    (t.length, ps.length, cur) ::
      buildTermOffsets rest (cur + t.length + 4 + ps.length * 8)

/-- InvertedIndex::save_to_file: header, document block, term offset table,
term records.  The four reserved header words are written as zeros (the C++
leaves them uninitialized; load ignores them). -/
def InvertedIndex.save_to_file (st : IndexState) : List Nat :=
  let header :=
    boolidxSignature ++ u32le 1 ++ u32le st.documents.length ++
      u32le st.index.length ++ u32le (InvertedIndex.totalPostings st) ++
      u32le 0 ++ u32le 0 ++ u32le 0 ++ u32le 0
  let docBlock := (st.documents.map documentBlockBytes).flatten
  let offsets := buildTermOffsets st.index
    (40 + st.documents.length * 16 + st.index.length * 16)
  let offsetTable :=
    (offsets.map fun e => u32le e.1 ++ u32le e.2.1 ++ u64le e.2.2).flatten
  let termRecords :=
    (st.index.map fun tp =>
      tp.1 ++ u32le tp.2.length ++
        (tp.2.map fun p => u32le p.doc_id ++ u32le p.frequency).flatten).flatten
  header ++ docBlock ++ offsetTable ++ termRecords

/-- Bounds-checked byte-range read at an absolute position. -/
def readBytesAt (bytes : List Nat) (pos n : Nat) : Option (List Nat) :=
  if pos + n ≤ bytes.length then some ((bytes.drop pos).take n) else none

/-- Little-endian u32 read. -/
def readU32At (bytes : List Nat) (pos : Nat) : Option Nat :=
  (readBytesAt bytes pos 4).map fun l =>
    l.getD 0 0 + l.getD 1 0 * 256 + l.getD 2 0 * 65536 + l.getD 3 0 * 16777216

/-- Little-endian u64 read. -/
def readU64At (bytes : List Nat) (pos : Nat) : Option Nat :=
  (readBytesAt bytes pos 8).map fun l =>
    l.getD 0 0 + l.getD 1 0 * 256 + l.getD 2 0 * 65536 + l.getD 3 0 * 16777216 +
      (l.getD 4 0 + l.getD 5 0 * 256 + l.getD 6 0 * 65536 + l.getD 7 0 * 16777216) *
        4294967296

/-- Document reading loop of load_from_file: returns the documents in file
order together with the position after the block.  `content_len` is read
and discarded; the stored id is used as read. -/
def loadDocsAux (bytes : List Nat) : Nat → Nat → Option (Nat × List Document)
  | 0, pos => some (pos, [])
  | n + 1, pos => do
    let id ← readU32At bytes pos
    let titleLen ← readU32At bytes (pos + 4)
    let title ← readBytesAt bytes (pos + 8) titleLen
    let urlLen ← readU32At bytes (pos + 8 + titleLen)
    let url ← readBytesAt bytes (pos + 12 + titleLen) urlLen
    let _contentLen ← readU32At bytes (pos + 12 + titleLen + urlLen)
    let docLength ← readU32At bytes (pos + 16 + titleLen + urlLen)
    let r ← loadDocsAux bytes n (pos + 20 + titleLen + urlLen)
    some (r.1, ⟨id, title, url, [], docLength⟩ :: r.2)

/-- TermOffsetTable reading loop of load_from_file. -/
def loadOffsetsAux (bytes : List Nat) : Nat → Nat → Option (Nat × List (Nat × Nat × Nat))
  | 0, pos => some (pos, [])
  | n + 1, pos => do
    let termLength ← readU32At bytes pos
    let postingCount ← readU32At bytes (pos + 4)
    let fileOffset ← readU64At bytes (pos + 8)
    let r ← loadOffsetsAux bytes n (pos + 16)
    some (r.1, (termLength, postingCount, fileOffset) :: r.2)

/-- Posting reading loop of load_from_file: each posting's positions are
reconstructed as `frequency` zero entries. -/
def loadPostingsAux (bytes : List Nat) : Nat → Nat → Option (List Posting)
  | 0, _ => some []
  | n + 1, pos => do
    let docId ← readU32At bytes pos
    let freq ← readU32At bytes (pos + 4)
    let rest ← loadPostingsAux bytes n (pos + 8)
    some (⟨docId, freq, List.replicate freq 0⟩ :: rest)

/-- Term record reading loop of load_from_file: seek to each table entry's
`file_offset`, read `term_length` term bytes, the record's own posting
count, and that many postings; insert into the term table. -/
def loadTermsAux (bytes : List Nat) :
    List (Nat × Nat × Nat) → List (List Nat × List Posting) →
      Option (List (List Nat × List Posting))
  | [], acc => some acc
  | e :: rest, acc => do
    let term ← readBytesAt bytes e.2.2 e.1
    let postingCount ← readU32At bytes (e.2.2 + e.1)
    let postings ← loadPostingsAux bytes postingCount (e.2.2 + e.1 + 4)
    loadTermsAux bytes rest (aupdate acc term postings)

/-- InvertedIndex::load_from_file on a byte list.  The signature must equal
`"BOOLIDX\0"` (the `strcmp` against `"BOOLIDX"` compares exactly the first
eight bytes including the terminator); the version word is read but never
validated.  On success the previous state is cleared and rebuilt, with the
url table filled from the loaded documents. -/
def InvertedIndex.load_from_file (cfg : TokenizerConfig) (bytes : List Nat) :
    Option IndexState := do
  let header ← readBytesAt bytes 0 40
  if header.take 8 == boolidxSignature then do
    let docCount ← readU32At bytes 12
    let termCount ← readU32At bytes 16
    let docsR ← loadDocsAux bytes docCount 40
    let offsetsR ← loadOffsetsAux bytes termCount docsR.1
    let idx ← loadTermsAux bytes offsetsR.2 []
    let urlMap := docsR.2.foldl (fun m d => aupdate m d.url d.id) []
    some ⟨cfg, docsR.2, idx, urlMap⟩
  else none

/-! ## Bit vector (cpp_modules/data_stuctures/bit_vector.h).  The packed
64-bit word array is a `List Nat` of word values; `size` is the bit count
and the word-list length plays the role of `capacity_`. -/

/-- BitVector::words_for_bits. -/
def wordsForBits (bits : Nat) : Nat :=
  (bits + 63) / 64

/-- All-ones 64-bit word (`~0ull`). -/
def uint64Max : Nat :=
  18446744073709551615

/-- BitVector: bit `i` lives in word `i / 64` at bit `i % 64`. -/
structure BitVector where
  size : Nat
  words : List Nat
  deriving DecidableEq, Repr

/-- The `BitVector(size)` constructor (value = false): zeroed words. -/
def BitVector.ofSize (n : Nat) : BitVector :=
  ⟨n, List.replicate (wordsForBits n) 0⟩

/-- Read of bit `index` (operator[]).  Out-of-capacity words read as zero;
the C++ callers below only read in range. -/
def BitVector.get (bv : BitVector) (index : Nat) : Bool :=
  (bv.words.getD (index / 64) 0).testBit (index % 64)

/-- Word update of BitVector::set: or in the bit mask, or and with its
64-bit complement. -/
def wordSet (w bit : Nat) (value : Bool) : Nat :=
  if value then w ||| (1 <<< bit) else w &&& (uint64Max ^^^ (1 <<< bit))

/-- BitVector::set.  The C++ `check_index` throws for `index ≥ size_`;
every call site modelled here is guarded by `index < size`, so the update
is total (a `List.set` beyond the capacity is a no-op). -/
def BitVector.set (bv : BitVector) (index : Nat) (value : Bool) : BitVector :=
  ⟨bv.size,
    bv.words.set (index / 64)
      (wordSet (bv.words.getD (index / 64) 0) (index % 64) value)⟩

/-- Mask the last word of the word list (`data_[capacity_ - 1] &= m`). -/
def maskLastWord : List Nat → Nat → List Nat
  | [], _ => []
  | [w], m => [w &&& m]
  | w :: w' :: rest, m => w :: maskLastWord (w' :: rest) m

/-- BitVector::flip_all: complement every word, then zero the bits of the
last word above `size_ % 64` (when that remainder is nonzero). -/
def BitVector.flip_all (bv : BitVector) : BitVector :=
  let flipped := bv.words.map fun w => uint64Max ^^^ w
  let extra := bv.size % 64
  if extra = 0 then ⟨bv.size, flipped⟩
  else ⟨bv.size, maskLastWord flipped (2 ^ extra - 1)⟩

/-- Word list of operator&=: and the first `min` words, zero the rest of
the left operand's words. -/
def andWords (aw bw : List Nat) : List Nat :=
  List.zipWith (· &&& ·) aw bw ++ List.replicate (aw.length - bw.length) 0

/-- Word list of operator|=: or the first `min` words, keep the rest of the
left operand's words. -/
def orWords (aw bw : List Nat) : List Nat :=
  List.zipWith (· ||| ·) aw bw ++ aw.drop bw.length

/-- BitVector::operator&= including its size guard, which throws
`std::invalid_argument` on a size mismatch. -/
def BitVector.andOp (a b : BitVector) : Except String BitVector :=
  if a.size ≠ b.size then .error "BitVector sizes must match for &="
  else .ok ⟨a.size, andWords a.words b.words⟩

/-- BitVector::operator|= including its size guard. -/
def BitVector.orOp (a b : BitVector) : Except String BitVector :=
  if a.size ≠ b.size then .error "BitVector sizes must match for |="
  else .ok ⟨a.size, orWords a.words b.words⟩

/-- BitVector::ctz: count of trailing zeros of a word by halving probes
(64 for a zero word). -/
def ctz64 (x : Nat) : Nat :=
  if x = 0 then 64 else
  let p1 := if x &&& 4294967295 = 0 then (x >>> 32, 32) else (x, 0)
  let p2 := if p1.1 &&& 65535 = 0 then (p1.1 >>> 16, p1.2 + 16) else p1
  let p3 := if p2.1 &&& 255 = 0 then (p2.1 >>> 8, p2.2 + 8) else p2
  let p4 := if p3.1 &&& 15 = 0 then (p3.1 >>> 4, p3.2 + 4) else p3
  let p5 := if p4.1 &&& 3 = 0 then (p4.1 >>> 2, p4.2 + 2) else p4
  if p5.1 &&& 1 = 0 then p5.2 + 1 else p5.2

/-- Word scan shared by find_first and the tail of find_next: the first
nonzero word at or after word index `i` yields `i * 64 + ctz`; otherwise
the result is `size`. -/
def findWordAux (size : Nat) : List Nat → Nat → Nat
  | [], _ => size
  | w :: ws, i => if w ≠ 0 then i * 64 + ctz64 w else findWordAux size ws (i + 1)

/-- BitVector::find_first. -/
def BitVector.find_first (bv : BitVector) : Nat :=
  findWordAux bv.size bv.words 0

/-- BitVector::find_next: the current word is masked with `~0ull << bit`,
a mask that keeps bit `pos` itself. -/
def BitVector.find_next (bv : BitVector) (pos : Nat) : Nat :=
  if bv.size ≤ pos then bv.size
  else
    let wi := pos / 64
    let bi := pos % 64
    let w := bv.words.getD wi 0 &&& ((uint64Max >>> bi) <<< bi)
    if w ≠ 0 then wi * 64 + ctz64 w
    else findWordAux bv.size (bv.words.drop (wi + 1)) (wi + 1)

/-! ## Query AST (cpp_modules/boolean_search/src/query_parser.h) and
evaluator (query_evaluator.{h,cpp}).  The tagged node variants become an
inductive type; child pointers of well-formed trees are never null. -/

/-- QueryNode and its concrete node classes as a sum type. -/
inductive QueryAst where
  | term : List Nat → QueryAst
  | phrase : List (List Nat) → QueryAst
  | proximity : List (List Nat) → Nat → QueryAst
  | and : QueryAst → QueryAst → QueryAst
  | or : QueryAst → QueryAst → QueryAst
  | not : QueryAst → QueryAst
  deriving DecidableEq, Repr

/-- QueryEvaluator::get_term_positions: positions of the first posting of
the term with the given document id, empty when the term or document is
absent. -/
def QueryEvaluator.get_term_positions (st : IndexState) (term : List Nat)
    (docId : Nat) : List Nat :=
  match InvertedIndex.find_postings st term with
  | none => []
  | some postings =>
    match postings.find? fun p => p.doc_id == docId with
    | some p => p.positions
    | none => []

/-- QueryEvaluator::check_phrase_positions: some position `pos` of the
first term has every later term `i` (1-based) at position `pos + i`. -/
def QueryEvaluator.check_phrase_positions (st : IndexState) (docId : Nat)
    (terms : List (List Nat)) : Bool :=
  match terms with
  | [] => false
  | t0 :: rest =>
    let firstPositions := QueryEvaluator.get_term_positions st t0 docId
    if firstPositions.isEmpty then false
    else
      firstPositions.any fun pos =>
        rest.enum.all fun it =>
          (QueryEvaluator.get_term_positions st it.2 docId).any fun tp =>
            tp == pos + it.1 + 1

/-- QueryEvaluator::check_proximity_positions: every term occurs, and some
position `p` of the first term has each later term at a position `q` with
`p ≤ q ≤ p + max_distance`. -/
def QueryEvaluator.check_proximity_positions (st : IndexState) (docId : Nat)
    (terms : List (List Nat)) (maxDistance : Nat) : Bool :=
  match terms with
  | [] => false
  | _ :: _ =>
    let allPositions := terms.map fun t =>
      QueryEvaluator.get_term_positions st t docId
    if allPositions.any (·.isEmpty) then false
    else
      match allPositions with
      | [] => false
      | a0 :: restA =>
        a0.any fun firstPos =>
          restA.all fun ps =>
            ps.any fun p => firstPos ≤ p && p ≤ firstPos + maxDistance

/-- QueryEvaluator::evaluate_term for a non-null index: a bit vector of
document-count size with a bit per posting whose doc id is in range. -/
def QueryEvaluator.evaluate_term (st : IndexState) (term : List Nat) : BitVector :=
  match InvertedIndex.find_postings st term with
  | none => BitVector.ofSize (InvertedIndex.get_document_count st)
  | some postings =>
    postings.foldl
      (fun bv p => if p.doc_id < bv.size then bv.set p.doc_id true else bv)
      (BitVector.ofSize (InvertedIndex.get_document_count st))

/-- Candidate filtering loop shared by evaluate_phrase and
evaluate_proximity:
`for (doc_id = find_first(); doc_id < size; doc_id = find_next(doc_id))`
clearing the bit of every document whose check fails.  Because find_next
keeps the current position when its bit is still set, the C++ loop
diverges on a surviving candidate; the model makes each iteration consume
one unit of fuel and returns the vector reached on exhaustion. -/
def QueryEvaluator.filterLoop (check : Nat → Bool) :
    Nat → BitVector → Nat → BitVector
  | 0, bv, _ => bv
  | fuel + 1, bv, pos =>
    if pos < bv.size then
      let bv' := if check pos then bv else bv.set pos false
      QueryEvaluator.filterLoop check fuel bv' (bv'.find_next pos)
    else bv

/-- QueryEvaluator::evaluate_phrase: start from the first term's vector and
filter by check_phrase_positions. -/
def QueryEvaluator.evaluate_phrase (st : IndexState) (fuel : Nat)
    (terms : List (List Nat)) : BitVector :=
  if terms.isEmpty then BitVector.ofSize (InvertedIndex.get_document_count st)
  else
    let result := QueryEvaluator.evaluate_term st (terms.headD [])
    QueryEvaluator.filterLoop
      (fun docId => QueryEvaluator.check_phrase_positions st docId terms)
      fuel result result.find_first

/-- QueryEvaluator::evaluate_proximity. -/
def QueryEvaluator.evaluate_proximity (st : IndexState) (fuel : Nat)
    (terms : List (List Nat)) (distance : Nat) : BitVector :=
  if terms.isEmpty then BitVector.ofSize (InvertedIndex.get_document_count st)
  else
    let result := QueryEvaluator.evaluate_term st (terms.headD [])
    QueryEvaluator.filterLoop
      (fun docId => QueryEvaluator.check_proximity_positions st docId terms distance)
      fuel result result.find_first

/-- QueryEvaluator::evaluate_not: flip all bits, then clear the bits from
`document_count` up to the operand's size. -/
def QueryEvaluator.evaluate_not (st : IndexState) (operand : BitVector) : BitVector :=
  let flipped := operand.flip_all
  (List.range' (InvertedIndex.get_document_count st)
      (flipped.size - InvertedIndex.get_document_count st)).foldl
    (fun bv i => bv.set i false) flipped

/-- QueryEvaluator::evaluate on a non-null AST against a non-null index;
the thrown size-mismatch exceptions of operator&= / operator|= surface as
`Except.error`. -/
def QueryEvaluator.evaluate (st : IndexState) (fuel : Nat) :
    QueryAst → Except String BitVector
  | .term t => .ok (QueryEvaluator.evaluate_term st t)
  | .phrase ts => .ok (QueryEvaluator.evaluate_phrase st fuel ts)
  | .proximity ts d => .ok (QueryEvaluator.evaluate_proximity st fuel ts d)
  | .and l r => do
    let a ← QueryEvaluator.evaluate st fuel l
    let b ← QueryEvaluator.evaluate st fuel r
    a.andOp b
  | .or l r => do
    let a ← QueryEvaluator.evaluate st fuel l
    let b ← QueryEvaluator.evaluate st fuel r
    a.orOp b
  | .not c => do
    let o ← QueryEvaluator.evaluate st fuel c
    .ok (QueryEvaluator.evaluate_not st o)

/-- DocumentResult as far as the claims see it.  `score` is the constant
double 1.0 and is not carried (floating point); `matchCount` stands for
the `matches` field, constantly 1. -/
structure DocumentResult where
  doc_id : Nat
  matchCount : Nat
  deriving DecidableEq, Repr

/-- Result enumeration loop of evaluate_detailed:
`for (doc_id = find_first(); doc_id < size; doc_id = find_next(doc_id))`
pushing one record per iteration.  No bit is ever cleared here, so a set
bit keeps `find_next` at the same position; fuel exhaustion (`none`)
models divergence.  The `std::sort` of the C++ runs only after this loop
ends. -/
def QueryEvaluator.detailedLoop :
    Nat → BitVector → Nat → List DocumentResult → Option (List DocumentResult)
  | 0, _, _, _ => none
  | fuel + 1, bv, pos, acc =>
    if pos < bv.size then
      QueryEvaluator.detailedLoop fuel bv (bv.find_next pos)
        (acc ++ [⟨pos, 1⟩])
    else some acc

/-- QueryEvaluator::evaluate_detailed: evaluate, then expand the result
vector; `none` inside the payload marks the non-terminating expansion. -/
def QueryEvaluator.evaluate_detailed (st : IndexState) (fuel : Nat)
    (ast : QueryAst) : Except String (Option (List DocumentResult)) := do
  let bv ← QueryEvaluator.evaluate st fuel ast
  .ok (QueryEvaluator.detailedLoop fuel bv bv.find_first [])

/-! ## Query compiler (cpp_modules/boolean_search/src/query_parser.{h,cpp}) -/

/-- TokenType of the query lexer. -/
inductive QTokenType where
  | TERM | AND | OR | NOT | LPAREN | RPAREN | QUOTE | PROXIMITY | END
  deriving DecidableEq, Repr

/-- QueryToken: type, value (TERM / PROXIMITY payload), byte position. -/
structure QueryToken where
  type : QTokenType
  value : List Nat
  position : Nat
  deriving DecidableEq, Repr

instance : Inhabited QueryToken := ⟨⟨.END, [], 0⟩⟩

/-- std::isalnum on a byte (C locale). -/
def isAlnumByte (c : Nat) : Bool :=
  isDigitByte c || (65 ≤ c && c ≤ 90) || (97 ≤ c && c ≤ 122)

/-- Identifier continuation bytes of the query lexer: alphanumerics,
hyphen, underscore, apostrophe, and any byte ≥ 128. -/
def isTermByte (c : Nat) : Bool :=
  isAlnumByte c || c == 45 || c == 95 || c == 39 || 128 ≤ c

/-- ds::String::to_lower on one byte: ASCII A-Z plus the Windows-1251
uppercase Cyrillic range 0xC0-0xDF and 0xA8 (Ё). -/
def dsToLowerByte (c : Nat) : Nat :=
  if 65 ≤ c && c ≤ 90 then c + 32
  else if 192 ≤ c && c ≤ 223 then c + 32
  else if c == 168 then 184
  else c

/-- ds::String::to_lower. -/
def dsToLower (s : List Nat) : List Nat :=
  s.map dsToLowerByte

/-- QueryParser::tokenize, one step per outer-loop iteration on the
remaining bytes with the absolute position `pos`; thrown lexer errors
(unclosed quote, empty proximity number, unknown character) are `none`.
Fuel is consumed once per iteration and each iteration consumes at least
one byte, so `length + 1` fuel never exhausts (the `none` of fuel 0 is
unreachable from `QueryParser.tokenize`). -/
def QueryParser.tokenizeAux : Nat → List Nat → Nat → Option (List QueryToken)
  | 0, _, _ => none
  | _ + 1, [], pos => some [⟨.END, [], pos⟩]
  | fuel + 1, c :: rest, pos =>
    if isSpaceByte c then QueryParser.tokenizeAux fuel rest (pos + 1)
    else if c == 35 then
      -- '#': a comment runs to (not through) the next newline
      let n := ((c :: rest).takeWhile fun ch => ch ≠ 10).length
      QueryParser.tokenizeAux fuel ((c :: rest).drop n) (pos + n)
    else if c == 38 && rest.headD 0 == 38 then do
      let toks ← QueryParser.tokenizeAux fuel (rest.drop 1) (pos + 2)
      some (⟨.AND, [], pos⟩ :: toks)
    else if c == 124 && rest.headD 0 == 124 then do
      let toks ← QueryParser.tokenizeAux fuel (rest.drop 1) (pos + 2)
      some (⟨.OR, [], pos⟩ :: toks)
    else if c == 33 then do
      let toks ← QueryParser.tokenizeAux fuel rest (pos + 1)
      some (⟨.NOT, [], pos⟩ :: toks)
    else if c == 40 then do
      let toks ← QueryParser.tokenizeAux fuel rest (pos + 1)
      some (⟨.LPAREN, [], pos⟩ :: toks)
    else if c == 41 then do
      let toks ← QueryParser.tokenizeAux fuel rest (pos + 1)
      some (⟨.RPAREN, [], pos⟩ :: toks)
    else if c == 34 then
      -- quoted phrase: verbatim content up to the closing quote
      let content := rest.takeWhile fun ch => ch ≠ 34
      let afterContent := rest.drop content.length
      match afterContent with
      | 34 :: afterQuote =>
        let closePos := pos + 1 + content.length
        -- skip spaces, then an optional '/' with a digit run
        let spaces := afterQuote.takeWhile isSpaceByte
        let afterSpaces := afterQuote.drop spaces.length
        let proxPos := closePos + 1 + spaces.length
        (match afterSpaces with
          | 47 :: afterSlash =>
            let digits := afterSlash.takeWhile isDigitByte
            if digits.isEmpty then none
            else do
              let toks ← QueryParser.tokenizeAux fuel
                (afterSlash.drop digits.length)
                (proxPos + 1 + digits.length)
              some (⟨.QUOTE, [], pos⟩ :: ⟨.TERM, content, closePos⟩ ::
                ⟨.QUOTE, [], closePos⟩ ::
                ⟨.PROXIMITY, digits, proxPos + 1 + digits.length⟩ :: toks)
          | _ => do
            let toks ← QueryParser.tokenizeAux fuel afterSpaces proxPos
            some (⟨.QUOTE, [], pos⟩ :: ⟨.TERM, content, closePos⟩ ::
              ⟨.QUOTE, [], closePos⟩ :: toks))
      | _ => none
    else if isAlnumByte c || 128 ≤ c then
      let raw := (c :: rest).takeWhile isTermByte
      do
        let toks ← QueryParser.tokenizeAux fuel ((c :: rest).drop raw.length)
          (pos + raw.length)
        some (⟨.TERM, dsToLower raw, pos + raw.length⟩ :: toks)
    else none

/-- QueryParser::tokenize on a whole query. -/
def QueryParser.tokenizeQuery (query : List Nat) : Option (List QueryToken) :=
  QueryParser.tokenizeAux (query.length + 1) query 0

/-- QueryParser::check / match: token type test with bounds check. -/
def QueryParser.checkTok (type : QTokenType) (tokens : List QueryToken)
    (pos : Nat) : Bool :=
  match tokens.get? pos with
  | some t => t.type == type
  | none => false

/-- Space-joined concatenation used by PhraseNode::to_string and
ProximityNode::to_string. -/
def joinSpace (ts : List (List Nat)) : List Nat :=
  (ts.intersperse [32]).flatten

/-- Decimal digit bytes of a number (std::to_string), with structural fuel. -/
def natBytesAux : Nat → Nat → List Nat
  | 0, _ => []
  | fuel + 1, n => if n < 10 then [48 + n] else natBytesAux fuel (n / 10) ++ [48 + n % 10]

/-- std::to_string on a Nat. -/
def natBytes (n : Nat) : List Nat :=
  natBytesAux (n + 1) n

/-- QueryNode::to_string of each node class. -/
def QueryAst.to_string : QueryAst → List Nat
  | .term t => t
  | .phrase ts => [34] ++ joinSpace ts ++ [34]
  | .proximity ts d => [34] ++ joinSpace ts ++ [34] ++ asciiBytes " / " ++ natBytes d
  | .and l r => [40] ++ l.to_string ++ asciiBytes " && " ++ r.to_string ++ [41]
  | .or l r => [40] ++ l.to_string ++ asciiBytes " || " ++ r.to_string ++ [41]
  | .not c => [33] ++ c.to_string

/-- QueryParser::optimize.  For AND / OR nodes the children are optimized
and, when they print to the same string, the optimized left child replaces
the node; otherwise the original node (with its original children) is
returned.  The `NOT NOT A = A` rewrite of the C++ sits inside the branch
already known to be AND or OR (`root->get_type() == NOT` there is never
true), so it is dead code, and NOT nodes fall through unchanged. -/
def QueryParser.optimize : QueryAst → QueryAst
  | .and l r =>
    let lo := QueryParser.optimize l
    let ro := QueryParser.optimize r
    if lo.to_string == ro.to_string then lo else .and l r
  | .or l r =>
    let lo := QueryParser.optimize l
    let ro := QueryParser.optimize r
    if lo.to_string == ro.to_string then lo else .or l r
  | ast => ast

/-- ds::String::split(' '): segments between delimiter occurrences, the
final segment always included (so an empty string splits to one empty
segment). -/
def splitByte (d : Nat) (s : List Nat) : List (List Nat) :=
  s.foldr
    (fun c acc =>
      match acc with
      | seg :: restSegs => if c == d then [] :: seg :: restSegs else (c :: seg) :: restSegs
      | [] => [[c]])
    [[]]

/-- std::stoul on a digit byte run. -/
def digitsToNat (digits : List Nat) : Nat :=
  digits.foldl (fun a d => a * 10 + (d - 48)) 0

/-- Mode of the fused recursive-descent functions: the four parse
procedures plus the two binary-operator loops (each carrying its running
left operand). -/
inductive PMode where
  | expr
  | exprLoop (left : QueryAst)
  | termM
  | termLoop (left : QueryAst)
  | factor
  | primary

/-- The mutually recursive parse_expression / parse_term / parse_factor /
parse_primary, fused into one fuel-indexed function so that the kernel can
evaluate it.  Errors thrown by `error(...)` (including unexpected tokens)
are `none`.  `parse_term` consumes another factor whenever the lookahead is
an explicit AND or anything other than RPAREN / OR / END (the implicit-AND
condition of the C++). -/
def QueryParser.parseGo :
    Nat → PMode → List QueryToken → Nat → Option (QueryAst × Nat)
  | 0, _, _, _ => none
  | fuel + 1, mode, tokens, pos =>
    match mode with
    | .expr => do
      let r ← QueryParser.parseGo fuel .termM tokens pos
      QueryParser.parseGo fuel (.exprLoop r.1) tokens r.2
    | .exprLoop left =>
      if QueryParser.checkTok .OR tokens pos then do
        let r ← QueryParser.parseGo fuel .termM tokens (pos + 1)
        QueryParser.parseGo fuel (.exprLoop (.or left r.1)) tokens r.2
      else some (left, pos)
    | .termM => do
      let r ← QueryParser.parseGo fuel .factor tokens pos
      QueryParser.parseGo fuel (.termLoop r.1) tokens r.2
    | .termLoop left =>
      if QueryParser.checkTok .AND tokens pos ||
          (!QueryParser.checkTok .RPAREN tokens pos &&
            !QueryParser.checkTok .OR tokens pos &&
            !QueryParser.checkTok .END tokens pos) then
        let pos' := if QueryParser.checkTok .AND tokens pos then pos + 1 else pos
        do
          let r ← QueryParser.parseGo fuel .factor tokens pos'
          QueryParser.parseGo fuel (.termLoop (.and left r.1)) tokens r.2
      else some (left, pos)
    | .factor =>
      if QueryParser.checkTok .NOT tokens pos then do
        let r ← QueryParser.parseGo fuel .factor tokens (pos + 1)
        some (.not r.1, r.2)
      else QueryParser.parseGo fuel .primary tokens pos
    | .primary =>
      if QueryParser.checkTok .LPAREN tokens pos then do
        let r ← QueryParser.parseGo fuel .expr tokens (pos + 1)
        if QueryParser.checkTok .RPAREN tokens r.2 then some (r.1, r.2 + 1)
        else none
      else if QueryParser.checkTok .QUOTE tokens pos then
        if QueryParser.checkTok .TERM tokens (pos + 1) then
          let phraseTok := tokens.getD (pos + 1) default
          let phraseTerms := splitByte 32 phraseTok.value
          if QueryParser.checkTok .QUOTE tokens (pos + 2) then
            if QueryParser.checkTok .PROXIMITY tokens (pos + 3) then
              let proxTok := tokens.getD (pos + 3) default
              some (.proximity phraseTerms (digitsToNat proxTok.value), pos + 4)
            else some (.phrase phraseTerms, pos + 3)
          else none
        else none
      else if QueryParser.checkTok .TERM tokens pos then
        let t := tokens.getD pos default
        some (.term t.value, pos + 1)
      else none

/-- QueryParser::parse: tokenize, reject the empty token stream, parse an
expression, require the END token to have been reached, and optimize.  The
catch-all around the body maps every thrown error to a null AST (`none`).
The fuel bound is generous: a successful C++ parse performs fewer calls
than `8 * (tokens + 2)` because every loop iteration and descent step
consumes at least one token overall. -/
def QueryParser.parse (query : List Nat) : Option QueryAst :=
  match QueryParser.tokenizeQuery query with
  | none => none
  | some tokens =>
    if tokens.length == 1 && (tokens.headD default).type == QTokenType.END then none
    else
      match QueryParser.parseGo (8 * (tokens.length + 2)) .expr tokens 0 with
      | none => none
      | some (root, pos) =>
        if QueryParser.checkTok .END tokens pos then
          some (QueryParser.optimize root)
        else none

/-! ## Spec-side definitions and concrete states used by the claims -/

/-- Well-formedness: the word list has exactly `words_for_bits(size)`
entries, as the C++ constructors establish and every operation preserves. -/
def BitVector.wf (bv : BitVector) : Prop :=
  bv.words.length = wordsForBits bv.size

/-- The set of document ids whose bit is set. -/
def BitVector.toSet (bv : BitVector) : Set Nat :=
  {i | bv.get i = true}

/-- Spec formulation (section 3, invariant 4, second half): positions are
unique within every posting.  Stated from the spec's words for comparison
with what `InvertedIndex.validate` actually checks. -/
def specPositionsUnique (st : IndexState) : Prop :=
  ∀ tp ∈ st.index, ∀ p ∈ tp.2, p.positions.Nodup

/-- A tokenizer with the default knob values and no stop words. -/
def cfg0 : TokenizerConfig :=
  ⟨2, 50, false, true, true, []⟩

/-- A document with the given url and content. -/
def mkDoc (u c : String) : Document :=
  ⟨0, [], asciiBytes u, asciiBytes c, 0⟩

/-- Scenario corpus of spec section 8 (scenarios 1-4), built through
index_document. -/
def idxScen : IndexState :=
  (InvertedIndex.index_document
    (InvertedIndex.index_document
      (InvertedIndex.index_document (IndexState.empty cfg0)
        (mkDoc "u0" "red car fast")).2
      (mkDoc "u1" "blue car slow")).2
    (mkDoc "u2" "red motorbike fast")).2

/-- Scenario-5 document 0 of spec section 8, indexed alone. -/
def idxS5 : IndexState :=
  (InvertedIndex.index_document (IndexState.empty cfg0)
    (mkDoc "u0" "moscow aviation institute founded 1930")).2

/-- An index of the single document with content "aa bb aa". -/
def idxAabbaa : IndexState :=
  (InvertedIndex.index_document (IndexState.empty cfg0) (mkDoc "u" "aa bb aa")).2

/-- The document reused by the C8 double-indexing example. -/
def docAA : Document :=
  mkDoc "u" "aa"

/-- That document indexed once into an empty index. -/
def st1aa : IndexState :=
  (InvertedIndex.index_document (IndexState.empty cfg0) docAA).2

/-- A state with a posting whose positions are duplicated (frequency 2,
positions `[0, 0]`), document table and url table consistent — the shape
load_from_file produces. -/
def stBad : IndexState :=
  ⟨cfg0, [⟨0, [], asciiBytes "u", [], 1⟩],
   [(asciiBytes "aa", [⟨0, 2, [0, 0]⟩])], [(asciiBytes "u", 0)]⟩

/-- A url of 30 bytes chosen so that the (incorrect) term-record offset 72
recorded by save_to_file lands inside the url bytes of the document block,
where the bytes spell the term "zz" with posting count 1 and doc id 0. -/
def craftedUrl : List Nat :=
  List.replicate 20 117 ++ [122, 122] ++ [1, 0, 0, 0] ++ [0, 0, 0, 0]

/-- A one-document, one-term index state exhibiting the save/load term
corruption. -/
def stC3 : IndexState :=
  ⟨cfg0, [⟨0, [], craftedUrl, [], 1⟩],
   [(asciiBytes "aa", [⟨0, 1, [5]⟩])], [(craftedUrl, 0)]⟩

/-- The serialized empty index with its version word patched from 1 to 2. -/
def fileVersion2 : List Nat :=
  (InvertedIndex.save_to_file (IndexState.empty cfg0)).set 8 2

/-- A tokenizer with min length 1 and max length 2, for the overflow-flush
counterexample. -/
def cfgX : TokenizerConfig :=
  ⟨1, 2, false, true, true, []⟩

/-- One-document index used by the C5 witness. -/
def idxW : IndexState :=
  (InvertedIndex.index_document (IndexState.empty cfg0) (mkDoc "w" "aa")).2

/-! ## Helper lemmas: bit-vector well-formedness through evaluation -/

theorem BitVector.size_ofSize (n : Nat) : (BitVector.ofSize n).size = n := rfl

theorem BitVector.wf_ofSize (n : Nat) : (BitVector.ofSize n).wf := by
  simp [BitVector.wf, BitVector.ofSize]

theorem BitVector.size_set (bv : BitVector) (i : Nat) (b : Bool) :
    (bv.set i b).size = bv.size := rfl

theorem BitVector.wf_set (bv : BitVector) (i : Nat) (b : Bool) (h : bv.wf) :
    (bv.set i b).wf := by
  simpa [BitVector.wf, BitVector.set] using h

theorem maskLastWord_length (ws : List Nat) (m : Nat) :
    (maskLastWord ws m).length = ws.length := by
  induction ws with
  | nil => rfl
  | cons w rest ih =>
    cases rest with
    | nil => rfl
    | cons w' rest' => simpa [maskLastWord] using ih

theorem BitVector.size_flip_all (bv : BitVector) :
    bv.flip_all.size = bv.size := by
  unfold BitVector.flip_all
  dsimp only
  split <;> rfl

theorem BitVector.wf_flip_all (bv : BitVector) (h : bv.wf) : bv.flip_all.wf := by
  unfold BitVector.wf BitVector.flip_all at *
  dsimp only
  split <;> simpa [maskLastWord_length] using h

theorem foldl_set_size (l : List Nat) (bv : BitVector) :
    (l.foldl (fun b i => BitVector.set b i false) bv).size = bv.size := by
  induction l generalizing bv with
  | nil => rfl
  | cons i rest ih => simpa using ih (bv.set i false)

theorem foldl_set_wf (l : List Nat) (bv : BitVector) (h : bv.wf) :
    (l.foldl (fun b i => BitVector.set b i false) bv).wf := by
  induction l generalizing bv with
  | nil => exact h
  | cons i rest ih => exact ih (bv.set i false) (bv.wf_set i false h)

theorem QueryEvaluator.size_evaluate_not (st : IndexState) (o : BitVector) :
    (QueryEvaluator.evaluate_not st o).size = o.size := by
  unfold QueryEvaluator.evaluate_not
  simp [foldl_set_size, BitVector.size_flip_all]

theorem QueryEvaluator.wf_evaluate_not (st : IndexState) (o : BitVector)
    (h : o.wf) : (QueryEvaluator.evaluate_not st o).wf := by
  unfold QueryEvaluator.evaluate_not
  exact foldl_set_wf _ _ (o.wf_flip_all h)

theorem size_foldl_postings (ps : List Posting) (bv : BitVector) :
    (ps.foldl
        (fun bv p => if p.doc_id < bv.size then bv.set p.doc_id true else bv)
        bv).size = bv.size := by
  induction ps generalizing bv with
  | nil => rfl
  | cons p rest ih =>
    simp only [List.foldl_cons]
    rw [ih]
    split <;> rfl

theorem wf_foldl_postings (ps : List Posting) (bv : BitVector) (h : bv.wf) :
    (ps.foldl
        (fun bv p => if p.doc_id < bv.size then bv.set p.doc_id true else bv)
        bv).wf := by
  induction ps generalizing bv with
  | nil => exact h
  | cons p rest ih =>
    simp only [List.foldl_cons]
    apply ih
    split
    · exact bv.wf_set _ _ h
    · exact h

theorem QueryEvaluator.size_evaluate_term (st : IndexState) (t : List Nat) :
    (QueryEvaluator.evaluate_term st t).size =
      InvertedIndex.get_document_count st := by
  unfold QueryEvaluator.evaluate_term
  split
  · rfl
  · exact size_foldl_postings _ _

theorem QueryEvaluator.wf_evaluate_term (st : IndexState) (t : List Nat) :
    (QueryEvaluator.evaluate_term st t).wf := by
  unfold QueryEvaluator.evaluate_term
  split
  · exact BitVector.wf_ofSize _
  · exact wf_foldl_postings _ _ (BitVector.wf_ofSize _)

theorem QueryEvaluator.size_filterLoop (check : Nat → Bool) (fuel : Nat)
    (bv : BitVector) (pos : Nat) :
    (QueryEvaluator.filterLoop check fuel bv pos).size = bv.size := by
  induction fuel generalizing bv pos with
  | zero => rfl
  | succ fuel ih =>
    unfold QueryEvaluator.filterLoop
    dsimp only
    split
    · rw [ih]
      split <;> rfl
    · rfl

theorem QueryEvaluator.wf_filterLoop (check : Nat → Bool) (fuel : Nat)
    (bv : BitVector) (pos : Nat) (h : bv.wf) :
    (QueryEvaluator.filterLoop check fuel bv pos).wf := by
  induction fuel generalizing bv pos with
  | zero => exact h
  | succ fuel ih =>
    unfold QueryEvaluator.filterLoop
    dsimp only
    split
    · apply ih
      split
      · exact h
      · exact bv.wf_set _ _ h
    · exact h

theorem QueryEvaluator.size_evaluate_phrase (st : IndexState) (fuel : Nat)
    (terms : List (List Nat)) :
    (QueryEvaluator.evaluate_phrase st fuel terms).size =
      InvertedIndex.get_document_count st := by
  unfold QueryEvaluator.evaluate_phrase
  split
  · rfl
  · rw [QueryEvaluator.size_filterLoop, QueryEvaluator.size_evaluate_term]

theorem QueryEvaluator.wf_evaluate_phrase (st : IndexState) (fuel : Nat)
    (terms : List (List Nat)) :
    (QueryEvaluator.evaluate_phrase st fuel terms).wf := by
  unfold QueryEvaluator.evaluate_phrase
  split
  · exact BitVector.wf_ofSize _
  · exact QueryEvaluator.wf_filterLoop _ _ _ _
      (QueryEvaluator.wf_evaluate_term _ _)

theorem QueryEvaluator.size_evaluate_proximity (st : IndexState) (fuel : Nat)
    (terms : List (List Nat)) (d : Nat) :
    (QueryEvaluator.evaluate_proximity st fuel terms d).size =
      InvertedIndex.get_document_count st := by
  unfold QueryEvaluator.evaluate_proximity
  split
  · rfl
  · rw [QueryEvaluator.size_filterLoop, QueryEvaluator.size_evaluate_term]

theorem QueryEvaluator.wf_evaluate_proximity (st : IndexState) (fuel : Nat)
    (terms : List (List Nat)) (d : Nat) :
    (QueryEvaluator.evaluate_proximity st fuel terms d).wf := by
  unfold QueryEvaluator.evaluate_proximity
  split
  · exact BitVector.wf_ofSize _
  · exact QueryEvaluator.wf_filterLoop _ _ _ _
      (QueryEvaluator.wf_evaluate_term _ _)

theorem length_andWords (aw bw : List Nat) :
    (andWords aw bw).length = aw.length := by
  simp [andWords]
  omega

theorem length_orWords (aw bw : List Nat) :
    (orWords aw bw).length = aw.length := by
  simp [orWords]
  omega

/-- operator&= succeeds exactly on equal sizes, and preserves size and
well-formedness. -/
theorem BitVector.andOp_ok (a b : BitVector) (hsz : a.size = b.size) :
    a.andOp b = .ok ⟨a.size, andWords a.words b.words⟩ := by
  simp [BitVector.andOp, hsz]

theorem BitVector.orOp_ok (a b : BitVector) (hsz : a.size = b.size) :
    a.orOp b = .ok ⟨a.size, orWords a.words b.words⟩ := by
  simp [BitVector.orOp, hsz]

/-- Every evaluation of a non-null AST over a non-null index returns a
result (no thrown size mismatch), and the result is a well-formed bit
vector of document-count size. -/
theorem QueryEvaluator.evaluate_ok (st : IndexState) (fuel : Nat)
    (ast : QueryAst) :
    ∃ bv, QueryEvaluator.evaluate st fuel ast = .ok bv ∧
      bv.size = InvertedIndex.get_document_count st ∧ bv.wf := by
  induction ast with
  | term t =>
    exact ⟨_, rfl, QueryEvaluator.size_evaluate_term st t,
      QueryEvaluator.wf_evaluate_term st t⟩
  | phrase ts =>
    exact ⟨_, rfl, QueryEvaluator.size_evaluate_phrase st fuel ts,
      QueryEvaluator.wf_evaluate_phrase st fuel ts⟩
  | proximity ts d =>
    exact ⟨_, rfl, QueryEvaluator.size_evaluate_proximity st fuel ts d,
      QueryEvaluator.wf_evaluate_proximity st fuel ts d⟩
  | and l r ihl ihr =>
    obtain ⟨a, ha, hasz, hawf⟩ := ihl
    obtain ⟨b, hb, hbsz, hbwf⟩ := ihr
    refine ⟨⟨a.size, andWords a.words b.words⟩, ?_, hasz, ?_⟩
    · simp only [QueryEvaluator.evaluate, ha, hb]
      exact a.andOp_ok b (hasz.trans hbsz.symm)
    · unfold BitVector.wf at *
      simpa [length_andWords] using hawf
  | or l r ihl ihr =>
    obtain ⟨a, ha, hasz, hawf⟩ := ihl
    obtain ⟨b, hb, hbsz, hbwf⟩ := ihr
    refine ⟨⟨a.size, orWords a.words b.words⟩, ?_, hasz, ?_⟩
    · simp only [QueryEvaluator.evaluate, ha, hb]
      exact a.orOp_ok b (hasz.trans hbsz.symm)
    · unfold BitVector.wf at *
      simpa [length_orWords] using hawf
  | not c ih =>
    obtain ⟨o, ho, hosz, howf⟩ := ih
    refine ⟨QueryEvaluator.evaluate_not st o, ?_, ?_, ?_⟩
    · simp only [QueryEvaluator.evaluate, ho]
      rfl
    · rw [QueryEvaluator.size_evaluate_not, hosz]
    · exact QueryEvaluator.wf_evaluate_not st o howf

/-! ## Helper lemmas: bit-level reading of the bit-vector operations -/

theorem getD_replicate_zero (n i : Nat) :
    (List.replicate n (0 : Nat)).getD i 0 = 0 := by
  induction n generalizing i with
  | zero => rfl
  | succ n ih =>
    cases i with
    | zero => rfl
    | succ i => simp [List.replicate, ih i]

theorem BitVector.get_ofSize (n i : Nat) :
    (BitVector.ofSize n).get i = false := by
  simp [BitVector.get, BitVector.ofSize, getD_replicate_zero]

theorem getD_map_lt (f : Nat → Nat) (ws : List Nat) (i : Nat)
    (h : i < ws.length) : (ws.map f).getD i 0 = f (ws.getD i 0) := by
  induction ws generalizing i with
  | nil => simp at h
  | cons w rest ih =>
    cases i with
    | zero => rfl
    | succ i => simpa using ih i (by simpa using h)

theorem getD_zipWith_land (aw bw : List Nat) (h : aw.length = bw.length)
    (i : Nat) :
    (List.zipWith (· &&& ·) aw bw).getD i 0 = aw.getD i 0 &&& bw.getD i 0 := by
  induction aw generalizing bw i with
  | nil =>
    cases bw with
    | nil => simp
    | cons b bs => simp at h
  | cons a as ih =>
    cases bw with
    | nil => simp at h
    | cons b bs =>
      cases i with
      | zero => rfl
      | succ i => simpa using ih bs (by simpa using h) i

theorem getD_zipWith_lor (aw bw : List Nat) (h : aw.length = bw.length)
    (i : Nat) :
    (List.zipWith (· ||| ·) aw bw).getD i 0 = aw.getD i 0 ||| bw.getD i 0 := by
  induction aw generalizing bw i with
  | nil =>
    cases bw with
    | nil => simp
    | cons b bs => simp at h
  | cons a as ih =>
    cases bw with
    | nil => simp at h
    | cons b bs =>
      cases i with
      | zero => rfl
      | succ i => simpa using ih bs (by simpa using h) i

theorem get_mk_andWords (s : Nat) (aw bw : List Nat)
    (h : aw.length = bw.length) (i : Nat) :
    (BitVector.mk s (andWords aw bw)).get i =
      ((BitVector.mk s aw).get i && (BitVector.mk s bw).get i) := by
  have hrep : andWords aw bw = List.zipWith (· &&& ·) aw bw := by
    simp [andWords, h]
  simp only [BitVector.get, hrep, getD_zipWith_land aw bw h, Nat.testBit_land]

theorem get_mk_orWords (s : Nat) (aw bw : List Nat)
    (h : aw.length = bw.length) (i : Nat) :
    (BitVector.mk s (orWords aw bw)).get i =
      ((BitVector.mk s aw).get i || (BitVector.mk s bw).get i) := by
  have hrep : orWords aw bw = List.zipWith (· ||| ·) aw bw := by
    simp [orWords, h, List.drop_eq_nil_of_le (Nat.le_of_eq h.symm)]
  simp only [BitVector.get, hrep, getD_zipWith_lor aw bw h, Nat.testBit_lor]

theorem getD_maskLastWord (ws : List Nat) (m i : Nat) :
    (maskLastWord ws m).getD i 0 =
      if i = ws.length - 1 then ws.getD i 0 &&& m else ws.getD i 0 := by
  induction ws generalizing i with
  | nil => simp [maskLastWord]
  | cons w rest ih =>
    cases rest with
    | nil =>
      cases i with
      | zero => simp [maskLastWord]
      | succ i => simp [maskLastWord]
    | cons w' rest' =>
      cases i with
      | zero => simp [maskLastWord]
      | succ i =>
        simpa [maskLastWord, Nat.succ_sub_one] using ih i

/-- Bit-level reading of flip_all on a well-formed vector: bits below
`size` are complemented, bits at or above `size` read false (the ghost
bits of the last word are masked off; words beyond the capacity do not
exist). -/
theorem BitVector.get_flip_all (bv : BitVector) (h : bv.wf) (i : Nat) :
    bv.flip_all.get i = (decide (i < bv.size) && !(bv.get i)) := by
  have hbi : i % 64 < 64 := Nat.mod_lt _ (by norm_num)
  have hlen : bv.words.length = (bv.size + 63) / 64 := h
  have hflipbit : ∀ w : Nat, (uint64Max ^^^ w).testBit (i % 64) = !w.testBit (i % 64) := by
    intro w
    have htop : Nat.testBit (2 ^ 64 - 1) (i % 64) = true := by
      rw [Nat.testBit_two_pow_sub_one]
      simpa using hbi
    rw [show uint64Max = 2 ^ 64 - 1 from by norm_num [uint64Max],
      Nat.testBit_xor, htop, Bool.true_xor]
  unfold BitVector.flip_all
  dsimp only
  by_cases hextra : bv.size % 64 = 0
  · rw [if_pos hextra]
    simp only [BitVector.get]
    by_cases hwi : i / 64 < bv.words.length
    · rw [getD_map_lt _ _ _ hwi, hflipbit]
      have hi : i < bv.size := by omega
      simp [hi]
    · have hged : (bv.words.map fun w => uint64Max ^^^ w).length ≤ i / 64 := by
        simpa using Nat.le_of_not_lt hwi
      rw [List.getD_eq_default _ _ hged]
      have hi : ¬ i < bv.size := by omega
      simp [hi]
  · rw [if_neg hextra]
    simp only [BitVector.get]
    rw [getD_maskLastWord]
    by_cases hwi : i / 64 < bv.words.length
    · by_cases hlast : i / 64 = (bv.words.map fun w => uint64Max ^^^ w).length - 1
      · rw [if_pos hlast]
        rw [getD_map_lt _ _ _ hwi, Nat.testBit_land, hflipbit,
          Nat.testBit_two_pow_sub_one]
        have hlast' : i / 64 = bv.words.length - 1 := by simpa using hlast
        have hcond : (i % 64 < bv.size % 64) ↔ i < bv.size := by omega
        rw [decide_eq_decide.mpr hcond, Bool.and_comm]
      · rw [if_neg hlast]
        rw [getD_map_lt _ _ _ hwi, hflipbit]
        have hlast' : ¬ i / 64 = bv.words.length - 1 := by simpa using hlast
        have hi : i < bv.size := by omega
        simp [hi]
    · have hged :
          (bv.words.map fun w => uint64Max ^^^ w).length ≤ i / 64 := by
        simpa using Nat.le_of_not_lt hwi
      rw [if_neg ?_, List.getD_eq_default _ _ hged]
      · have hi : ¬ i < bv.size := by omega
        simp [hi]
      · intro hcontra
        have : i / 64 = bv.words.length - 1 := by simpa using hcontra
        omega

/-- Bit-level reading of evaluate_not: since the operand's size equals the
document count, the trailing clear loop runs zero iterations and the
result is the masked complement. -/
theorem QueryEvaluator.get_evaluate_not (st : IndexState) (o : BitVector)
    (h : o.wf) (hsz : o.size = InvertedIndex.get_document_count st) (i : Nat) :
    (QueryEvaluator.evaluate_not st o).get i =
      (decide (i < InvertedIndex.get_document_count st) && !(o.get i)) := by
  unfold QueryEvaluator.evaluate_not
  dsimp only
  rw [BitVector.size_flip_all, hsz, Nat.sub_self, List.range'_zero,
    List.foldl_nil, o.get_flip_all h, hsz]

/-- C10: for every AST evaluated against a non-null index, evaluation
returns a bit vector (the size-mismatch exceptions of operator&= and
operator|= are unreachable) and every produced vector — in particular
every operand of every AND / OR, being the evaluation of a sub-AST — has
length equal to the index's document count. -/
theorem c10_evaluate_sizes_match (st : IndexState) (fuel : Nat)
    (ast : QueryAst) :
    ∃ bv, QueryEvaluator.evaluate st fuel ast = .ok bv ∧
      bv.size = InvertedIndex.get_document_count st := by
  obtain ⟨bv, h1, h2, _⟩ := QueryEvaluator.evaluate_ok st fuel ast
  exact ⟨bv, h1, h2⟩

/-- C5: evaluation obeys the boolean-algebra laws as sets of document ids:
AND is intersection, OR is union, NOT is complement within
`{0..D-1}`, and the NOT result never has a bit set at an index `≥ D`. -/
theorem c5_boolean_algebra_laws (st : IndexState) (fuel : Nat)
    (A B : QueryAst) (bva bvb bvab bvob bvna : BitVector)
    (hA : QueryEvaluator.evaluate st fuel A = .ok bva)
    (hB : QueryEvaluator.evaluate st fuel B = .ok bvb)
    (hAB : QueryEvaluator.evaluate st fuel (.and A B) = .ok bvab)
    (hOB : QueryEvaluator.evaluate st fuel (.or A B) = .ok bvob)
    (hNA : QueryEvaluator.evaluate st fuel (.not A) = .ok bvna) :
    bvab.toSet = bva.toSet ∩ bvb.toSet ∧
      bvob.toSet = bva.toSet ∪ bvb.toSet ∧
      bvna.toSet =
        {i | i < InvertedIndex.get_document_count st} \ bva.toSet ∧
      ∀ i, InvertedIndex.get_document_count st ≤ i → bvna.get i = false := by
  obtain ⟨a, ha, hasz, hawf⟩ := QueryEvaluator.evaluate_ok st fuel A
  rw [hA] at ha
  injection ha with ha
  subst ha
  obtain ⟨b, hb, hbsz, hbwf⟩ := QueryEvaluator.evaluate_ok st fuel B
  rw [hB] at hb
  injection hb with hb
  subst hb
  have hlen : bva.words.length = bvb.words.length := by
    rw [hawf, hbwf, hasz, hbsz]
  have hszab : bva.size = bvb.size := hasz.trans hbsz.symm
  have hAB' : QueryEvaluator.evaluate st fuel (.and A B) =
      Except.ok ⟨bva.size, andWords bva.words bvb.words⟩ := by
    simp only [QueryEvaluator.evaluate, hA, hB]
    exact bva.andOp_ok bvb hszab
  rw [hAB'] at hAB
  injection hAB with hAB
  subst hAB
  have hOB' : QueryEvaluator.evaluate st fuel (.or A B) =
      Except.ok ⟨bva.size, orWords bva.words bvb.words⟩ := by
    simp only [QueryEvaluator.evaluate, hA, hB]
    exact bva.orOp_ok bvb hszab
  rw [hOB'] at hOB
  injection hOB with hOB
  subst hOB
  have hNA' : QueryEvaluator.evaluate st fuel (.not A) =
      Except.ok (QueryEvaluator.evaluate_not st bva) := by
    simp only [QueryEvaluator.evaluate, hA]
    rfl
  rw [hNA'] at hNA
  injection hNA with hNA
  subst hNA
  refine ⟨?_, ?_, ?_, ?_⟩
  · ext i
    simp only [BitVector.toSet, Set.mem_setOf_eq, Set.mem_inter_iff]
    rw [get_mk_andWords _ _ _ hlen]
    simp [BitVector.get]
  · ext i
    simp only [BitVector.toSet, Set.mem_setOf_eq, Set.mem_union]
    rw [get_mk_orWords _ _ _ hlen]
    simp [BitVector.get]
  · ext i
    simp only [BitVector.toSet, Set.mem_setOf_eq, Set.mem_diff]
    rw [QueryEvaluator.get_evaluate_not st bva hawf hasz]
    simp
  · intro i hi
    rw [QueryEvaluator.get_evaluate_not st bva hawf hasz]
    simp [Nat.not_lt.mpr hi]

/-- Witness for C5: the laws instantiated on a one-document index with the
queries `aa && bb`, `aa || bb`, `!aa`, every hypothesis discharged by
computation. -/
theorem c5_boolean_algebra_laws_witness :
    (QueryEvaluator.evaluate idxW 1 (.term (asciiBytes "aa")) =
        .ok ⟨1, [1]⟩ ∧
      QueryEvaluator.evaluate idxW 1 (.term (asciiBytes "bb")) =
        .ok ⟨1, [0]⟩ ∧
      QueryEvaluator.evaluate idxW 1
          (.and (.term (asciiBytes "aa")) (.term (asciiBytes "bb"))) =
        .ok ⟨1, [0]⟩ ∧
      QueryEvaluator.evaluate idxW 1
          (.or (.term (asciiBytes "aa")) (.term (asciiBytes "bb"))) =
        .ok ⟨1, [1]⟩ ∧
      QueryEvaluator.evaluate idxW 1 (.not (.term (asciiBytes "aa"))) =
        .ok ⟨1, [0]⟩) ∧
    ((⟨1, [0]⟩ : BitVector).toSet =
        (⟨1, [1]⟩ : BitVector).toSet ∩ (⟨1, [0]⟩ : BitVector).toSet ∧
      (⟨1, [1]⟩ : BitVector).toSet =
        (⟨1, [1]⟩ : BitVector).toSet ∪ (⟨1, [0]⟩ : BitVector).toSet ∧
      (⟨1, [0]⟩ : BitVector).toSet =
        {i | i < InvertedIndex.get_document_count idxW} \
          (⟨1, [1]⟩ : BitVector).toSet ∧
      ∀ i, InvertedIndex.get_document_count idxW ≤ i →
        (⟨1, [0]⟩ : BitVector).get i = false) :=
  ⟨⟨rfl, rfl, rfl, rfl, rfl⟩,
    c5_boolean_algebra_laws idxW 1 (.term (asciiBytes "aa"))
      (.term (asciiBytes "bb")) ⟨1, [1]⟩ ⟨1, [0]⟩ ⟨1, [0]⟩ ⟨1, [1]⟩ ⟨1, [0]⟩
      rfl rfl rfl rfl rfl⟩

/-! ## Helper lemmas: tokenizer length bounds -/

/-- Normalization never lengthens a token. -/
theorem Tokenizer.length_normalize_le (cfg : TokenizerConfig) (tok : List Nat) :
    (Tokenizer.normalize_token cfg tok).length ≤ tok.length := by
  unfold Tokenizer.normalize_token
  dsimp only
  refine le_trans (List.length_filterMap_le _ _) ?_
  split
  · calc
      (((tok.dropWhile Tokenizer.is_punctuation).reverse.dropWhile
          Tokenizer.is_punctuation).reverse).length =
          ((tok.dropWhile Tokenizer.is_punctuation).reverse.dropWhile
            Tokenizer.is_punctuation).length := by
        simp
      _ ≤ (tok.dropWhile Tokenizer.is_punctuation).reverse.length :=
        (List.dropWhile_sublist _).length_le
      _ = (tok.dropWhile Tokenizer.is_punctuation).length := by simp
      _ ≤ tok.length := (List.dropWhile_sublist _).length_le
  · exact le_rfl

/-- The token bound every claim-7 emission obeys. -/
def tokenBound (cfg : TokenizerConfig) (t : List Nat) : Prop :=
  cfg.min_token_length ≤ t.length ∧
    t.length ≤ cfg.max_token_length + 1 ∧
    Tokenizer.is_stopword cfg t = false

theorem mem_emitAtDelimiter (cfg : TokenizerConfig) (cur t : List Nat)
    (h : t ∈ Tokenizer.emitAtDelimiter cfg cur) : tokenBound cfg t := by
  unfold Tokenizer.emitAtDelimiter at h
  dsimp only at h
  split at h
  · rename_i hguard
    simp only [List.mem_singleton] at h
    subst h
    simp only [Bool.and_eq_true, decide_eq_true_eq, Bool.not_eq_true'] at hguard
    exact ⟨hguard.1.1, le_trans hguard.1.2 (Nat.le_succ _), hguard.2⟩
  · simp at h

theorem mem_emitAtOverflow (cfg : TokenizerConfig) (cur t : List Nat)
    (hcur : cur.length ≤ cfg.max_token_length + 1)
    (h : t ∈ Tokenizer.emitAtOverflow cfg cur) : tokenBound cfg t := by
  unfold Tokenizer.emitAtOverflow at h
  dsimp only at h
  split at h
  · rename_i hguard
    simp only [List.mem_singleton] at h
    subst h
    simp only [Bool.and_eq_true, decide_eq_true_eq, Bool.not_eq_true'] at hguard
    exact ⟨hguard.1,
      le_trans (Tokenizer.length_normalize_le cfg cur) hcur, hguard.2⟩
  · simp at h

theorem tokenizeAux_bound (cfg : TokenizerConfig) :
    ∀ (text cur : List Nat), cur.length ≤ cfg.max_token_length →
      ∀ t ∈ Tokenizer.tokenizeAux cfg text cur, tokenBound cfg t := by
  intro text
  induction text with
  | nil =>
    intro cur hcur t ht
    unfold Tokenizer.tokenizeAux at ht
    split at ht
    · simp at ht
    · exact mem_emitAtDelimiter cfg cur t ht
  | cons c rest ih =>
    intro cur hcur t ht
    unfold Tokenizer.tokenizeAux at ht
    split at ht
    · rw [List.mem_append] at ht
      rcases ht with ht | ht
      · split at ht
        · simp at ht
        · exact mem_emitAtDelimiter cfg cur t ht
      · exact ih [] (Nat.zero_le _) t ht
    · dsimp only at ht
      split at ht
      · rw [List.mem_append] at ht
        rcases ht with ht | ht
        · exact mem_emitAtOverflow cfg (cur ++ [c]) t (by simpa using hcur) ht
        · exact ih [] (Nat.zero_le _) t ht
      · rename_i hle
        exact ih (cur ++ [c]) (by simpa using Nat.le_of_not_lt hle) t ht

theorem mem_emitPosAtDelimiter (cfg : TokenizerConfig) (cur : List Nat)
    (s : Nat) (ti : TokenWithPosition)
    (h : ti ∈ Tokenizer.emitPosAtDelimiter cfg cur s) :
    tokenBound cfg ti.token := by
  unfold Tokenizer.emitPosAtDelimiter at h
  dsimp only at h
  split at h
  · rename_i hguard
    simp only [List.mem_singleton] at h
    subst h
    simp only [Bool.and_eq_true, decide_eq_true_eq, Bool.not_eq_true'] at hguard
    exact ⟨hguard.1.1, le_trans hguard.1.2 (Nat.le_succ _), hguard.2⟩
  · simp at h

theorem mem_emitPosAtOverflow (cfg : TokenizerConfig) (cur : List Nat)
    (s : Nat) (ti : TokenWithPosition)
    (hcur : cur.length ≤ cfg.max_token_length + 1)
    (h : ti ∈ Tokenizer.emitPosAtOverflow cfg cur s) :
    tokenBound cfg ti.token := by
  unfold Tokenizer.emitPosAtOverflow at h
  dsimp only at h
  split at h
  · rename_i hguard
    simp only [List.mem_singleton] at h
    subst h
    simp only [Bool.and_eq_true, decide_eq_true_eq, Bool.not_eq_true'] at hguard
    exact ⟨hguard.1,
      le_trans (Tokenizer.length_normalize_le cfg cur) hcur, hguard.2⟩
  · simp at h

theorem tokenizeWithPositionsAux_bound (cfg : TokenizerConfig) :
    ∀ (text : List Nat) (i : Nat) (cur : List Nat) (s : Nat),
      cur.length ≤ cfg.max_token_length →
      ∀ ti ∈ Tokenizer.tokenizeWithPositionsAux cfg text i cur s,
        tokenBound cfg ti.token := by
  intro text
  induction text with
  | nil =>
    intro i cur s hcur ti ht
    unfold Tokenizer.tokenizeWithPositionsAux at ht
    split at ht
    · simp at ht
    · exact mem_emitPosAtDelimiter cfg cur s ti ht
  | cons c rest ih =>
    intro i cur s hcur ti ht
    unfold Tokenizer.tokenizeWithPositionsAux at ht
    split at ht
    · rw [List.mem_append] at ht
      rcases ht with ht | ht
      · split at ht
        · simp at ht
        · exact mem_emitPosAtDelimiter cfg cur s ti ht
      · exact ih (i + 1) [] (i + 1) (Nat.zero_le _) ti ht
    · dsimp only at ht
      split at ht
      · rw [List.mem_append] at ht
        rcases ht with ht | ht
        · exact mem_emitPosAtOverflow cfg (cur ++ [c]) _ ti
            (by simpa using hcur) ht
        · exact ih (i + 1) [] (i + 1) (Nat.zero_le _) ti ht
      · rename_i hle
        exact ih (i + 1) (cur ++ [c]) _
          (by simpa using Nat.le_of_not_lt hle) ti ht

/-- C7 (amended): every token emitted by tokenize or
tokenize_with_positions has normalized byte length at least
`min_token_length` and at most `max_token_length + 1` and is not a stop
word; the original bound `max_token_length` does not hold for the
overflow-flush emissions, which check only the lower bound. -/
theorem c7_token_bounds_amended (cfg : TokenizerConfig) (text : List Nat) :
    (∀ t ∈ Tokenizer.tokenize cfg text, tokenBound cfg t) ∧
      ∀ ti ∈ Tokenizer.tokenize_with_positions cfg text,
        tokenBound cfg ti.token :=
  ⟨tokenizeAux_bound cfg text [] (Nat.zero_le _),
    tokenizeWithPositionsAux_bound cfg text 0 [] 0 (Nat.zero_le _)⟩

/-- Witness for C7 (amended), instantiated on the default configuration
and the text "red car". -/
theorem c7_token_bounds_amended_witness :
    (asciiBytes "red" ∈ Tokenizer.tokenize cfg0 (asciiBytes "red car")) ∧
      tokenBound cfg0 (asciiBytes "red") :=
  ⟨by decide,
    (c7_token_bounds_amended cfg0 (asciiBytes "red car")).1 _ (by decide)⟩

/-- Counterexample for C7 as stated: with `min_token_length = 1`,
`max_token_length = 2` and no stop words, the text "aaa" triggers the
overflow flush and emits the token "aaa" of length 3 > 2. -/
theorem c7_counterexample :
    ¬ ∀ t ∈ Tokenizer.tokenize cfgX (asciiBytes "aaa"),
        t.length ≤ cfgX.max_token_length := by
  decide

/-- Document loop of validate read as a proposition over the enumerated
suffix. -/
theorem validateDocsAux_iff (st : IndexState) :
    ∀ (docs : List Document) (i : Nat),
      InvertedIndex.validateDocsAux st docs i = true ↔
        ∀ p ∈ List.enumFrom i docs,
          p.2.id = p.1 ∧ alookup st.url_to_doc_id p.2.url = some p.2.id := by
  intro docs
  induction docs with
  | nil => intro i; simp [InvertedIndex.validateDocsAux]
  | cons d rest ih =>
    intro i
    rw [List.enumFrom_cons]
    unfold InvertedIndex.validateDocsAux
    rw [Bool.and_eq_true, Bool.and_eq_true]
    simp only [List.mem_cons, beq_iff_eq]
    constructor
    · rintro ⟨⟨h1, h2⟩, h3⟩ p hp
      rcases hp with hp | hp
      · subst hp
        exact ⟨h1, h2⟩
      · exact (ih (i + 1)).mp h3 p hp
    · intro h
      refine ⟨⟨(h (i, d) (Or.inl rfl)).1, (h (i, d) (Or.inl rfl)).2⟩, ?_⟩
      exact (ih (i + 1)).mpr fun p hp => h p (Or.inr hp)

/-- C9 (amended): validate() returns true iff invariants 1-3 of section 3
hold together with `|positions| == frequency`; uniqueness of positions
within a posting (the second half of invariant 4) is not checked, so
validate accepts states with duplicated positions (e.g. those built by
load_from_file). -/
theorem c9_validate_amended (st : IndexState) :
    InvertedIndex.validate st = true ↔
      ((∀ p ∈ st.documents.enum,
          p.2.id = p.1 ∧ alookup st.url_to_doc_id p.2.url = some p.2.id) ∧
        ∀ tp ∈ st.index, ∀ po ∈ tp.2,
          po.doc_id < st.documents.length ∧
            po.frequency = po.positions.length) := by
  unfold InvertedIndex.validate
  rw [Bool.and_eq_true]
  rw [show st.documents.enum = List.enumFrom 0 st.documents from rfl]
  rw [validateDocsAux_iff]
  simp [List.all_eq_true]

/-- Counterexample for C9 as stated: a state whose single posting has
positions `[0, 0]` (frequency 2) passes validate although the section-3
position-uniqueness invariant fails. -/
theorem c9_counterexample :
    InvertedIndex.validate stBad = true ∧ ¬ specPositionsUnique stBad := by
  constructor
  · rfl
  · unfold specPositionsUnique
    decide

/-- C8 (amended): add_document with an already-present url returns the
existing id and the whole state unchanged; index_document, however,
returns the existing id but re-tokenizes the content and appends a
duplicate posting for each of its terms (the document is re-indexed),
leaving the document table itself unchanged. -/
theorem c8_add_document_amended :
    (∀ (st : IndexState) (doc : Document) (id0 : Nat),
        alookup st.url_to_doc_id doc.url = some id0 →
          InvertedIndex.add_document st doc = (id0, st)) ∧
      ((InvertedIndex.index_document st1aa docAA).1 = 0 ∧
        (InvertedIndex.find_postings st1aa (asciiBytes "aa")).map List.length
            = some 1 ∧
        (InvertedIndex.find_postings
              (InvertedIndex.index_document st1aa docAA).2
              (asciiBytes "aa")).map List.length = some 2 ∧
        (InvertedIndex.index_document st1aa docAA).2.documents =
          st1aa.documents) := by
  constructor
  · intro st doc id0 h
    unfold InvertedIndex.add_document
    rw [h]
  · exact ⟨rfl, rfl, rfl, rfl⟩

/-- Witness for C8 (amended): the add_document frame property applied to
the concrete one-document state. -/
theorem c8_add_document_amended_witness :
    alookup st1aa.url_to_doc_id docAA.url = some 0 ∧
      InvertedIndex.add_document st1aa docAA = (0, st1aa) :=
  ⟨rfl, c8_add_document_amended.1 st1aa docAA 0 rfl⟩

/-- Counterexample for C8 as stated: re-calling index_document on the
already-present url "u" changes the postings list of "aa" (its length
doubles), refuting "every term's postings list is unchanged". -/
theorem c8_counterexample :
    alookup st1aa.url_to_doc_id docAA.url = some 0 ∧
      InvertedIndex.find_postings
          (InvertedIndex.index_document st1aa docAA).2 (asciiBytes "aa") ≠
        InvertedIndex.find_postings st1aa (asciiBytes "aa") := by
  exact ⟨rfl, by decide⟩

/-- C4 (amended): load_from_file rejects every file whose first eight
bytes differ from `"BOOLIDX\0"`; the version field is read but never
validated. -/
theorem c4_signature_rejected (cfg : TokenizerConfig) (bytes : List Nat)
    (h : bytes.take 8 ≠ boolidxSignature) :
    InvertedIndex.load_from_file cfg bytes = none := by
  unfold InvertedIndex.load_from_file
  by_cases hlen : 40 ≤ bytes.length
  · have hheader : readBytesAt bytes 0 40 = some ((bytes.drop 0).take 40) := by
      simp [readBytesAt]
      omega
    rw [hheader]
    show (if ((bytes.drop 0).take 40).take 8 == boolidxSignature then _ else none)
        = (none : Option IndexState)
    rw [List.drop_zero, List.take_take]
    have : ¬ (bytes.take (min 8 40) == boolidxSignature) = true := by
      simpa using h
    rw [if_neg this]
  · have hnone : readBytesAt bytes 0 40 = none := by
      simp [readBytesAt]
      omega
    rw [hnone]
    rfl

/-- Witness for C4 (amended): the empty file has a wrong signature and is
rejected. -/
theorem c4_signature_rejected_witness :
    ([] : List Nat).take 8 ≠ boolidxSignature ∧
      InvertedIndex.load_from_file cfg0 [] = none :=
  ⟨by decide, c4_signature_rejected cfg0 [] (by decide)⟩

/-- Counterexample for C4 as stated: the serialized empty index with its
version word set to 2 (bytes 8-11 read `[2,0,0,0]`) is accepted by
load_from_file. -/
theorem c4_counterexample :
    (InvertedIndex.load_from_file cfg0 fileVersion2).isSome = true ∧
      (fileVersion2.drop 8).take 4 = [2, 0, 0, 0] := by
  exact ⟨rfl, rfl⟩

/-- C6: the parse of "!!a" returns the double negation untouched — the
`!!A → A` rule of QueryParser::optimize is dead code (its guard requires
the node to be a NOT inside the branch reserved for AND / OR), and
optimize does not recurse into NOT nodes at all. -/
theorem c6_double_negation_kept :
    QueryParser.parse (asciiBytes "!!a") =
        some (.not (.not (.term [97]))) ∧
      QueryParser.optimize (.not (.not (.term [97]))) =
        .not (.not (.term [97])) := by
  exact ⟨rfl, rfl⟩

/-- The enumeration loop can never terminate once it stands on a set bit:
on the scenario vector `{0, 2}` of size 3 (word value 5), find_next 0 = 0,
so every fuel amount is exhausted. -/
theorem detailedLoop_stuck_red :
    ∀ (fuel : Nat) (acc : List DocumentResult),
      QueryEvaluator.detailedLoop fuel ⟨3, [5]⟩ 0 acc = none := by
  intro fuel
  induction fuel with
  | zero => intro acc; rfl
  | succ fuel ih =>
    intro acc
    exact ih (acc ++ [⟨0, 1⟩])

/-- C1: on the scenario corpus, the query `red` evaluates to the bit
vector `{0, 2}` (a set bit at document 0), and evaluate_detailed never
terminates — for every fuel bound the enumeration loop driven by
find_first / find_next is still running, because find_next(pos) includes
bit `pos` itself and no bit is ever cleared. -/
theorem c1_evaluate_detailed_diverges (fuel : Nat) :
    QueryEvaluator.evaluate idxScen fuel (.term (asciiBytes "red")) =
        .ok ⟨3, [5]⟩ ∧
      (⟨3, [5]⟩ : BitVector).get 0 = true ∧
      (⟨3, [5]⟩ : BitVector).find_next 0 = 0 ∧
      QueryEvaluator.evaluate_detailed idxScen fuel
        (.term (asciiBytes "red")) = .ok none := by
  refine ⟨rfl, rfl, rfl, ?_⟩
  unfold QueryEvaluator.evaluate_detailed
  show Except.ok (QueryEvaluator.detailedLoop fuel ⟨3, [5]⟩
      ((⟨3, [5]⟩ : BitVector).find_first) []) = Except.ok none
  rw [show (⟨3, [5]⟩ : BitVector).find_first = 0 from rfl]
  rw [detailedLoop_stuck_red fuel []]

/-- C2: positions stored by index_document are the starting byte offsets
delivered by tokenize_with_positions, not sequential token indexes: for
content "aa bb aa" the posting of "aa" carries `[0, 6]` (sequential
indexes would be `[0, 2]`), and for the scenario-5 document
"moscow aviation institute founded 1930" the terms sit at byte offsets
0 / 7 / 16, so the phrase check for the three consecutive words (which
looks for `pos + 1`, `pos + 2`) fails on the very document that contains
the phrase. -/
theorem c2_positions_are_byte_offsets :
    InvertedIndex.find_postings idxAabbaa (asciiBytes "aa") =
        some [⟨0, 2, [0, 6]⟩] ∧
      InvertedIndex.find_postings idxS5 (asciiBytes "moscow") =
        some [⟨0, 1, [0]⟩] ∧
      InvertedIndex.find_postings idxS5 (asciiBytes "aviation") =
        some [⟨0, 1, [7]⟩] ∧
      InvertedIndex.find_postings idxS5 (asciiBytes "institute") =
        some [⟨0, 1, [16]⟩] ∧
      QueryEvaluator.check_phrase_positions idxS5 0
        [asciiBytes "moscow", asciiBytes "aviation", asciiBytes "institute"]
        = false := by
  exact ⟨rfl, rfl, rfl, rfl, rfl⟩

set_option maxRecDepth 8000 in
/-- C3: the save/load round trip corrupts the term table.  save_to_file
computes each TermRecord offset assuming 16 bytes per document entry while
actually writing `20 + |title| + |url|` bytes, so load_from_file seeks
into the wrong place; on `stC3` the loaded index names the term "zz"
(bytes of the crafted url) instead of "aa", while the document count is
preserved. -/
theorem c3_save_load_corrupts_terms :
    (InvertedIndex.load_from_file cfg0 (InvertedIndex.save_to_file stC3)).map
        InvertedIndex.get_all_terms = some [[122, 122]] ∧
      InvertedIndex.get_all_terms stC3 = [asciiBytes "aa"] ∧
      (InvertedIndex.load_from_file cfg0 (InvertedIndex.save_to_file stC3)).map
        InvertedIndex.get_document_count = some 1 := by
  exact ⟨rfl, rfl, rfl⟩
